import Mathlib

/-!
# Verification of the coconut-billing core against its specification

Shallow embedding of the repository's core logic:

* `src/core.py` — the calculation engine (`calculate`, half-even rounding of
  the wastage, 2-decimal quantization of monetary values).  Python `Decimal`
  values are modelled exactly as mantissa/scale pairs (`Dec`), i.e. the
  number `m * 10^(-s)`; the repository's 28-digit precision context is exact
  for every operation the source performs (multiplications, additions,
  subtractions, and division by the literal `Decimal("100")`, which is a
  pure scale shift).  `Dec.toRat` maps a decimal to its exact rational
  value, which is what specification-level statements quantify over.
* `src/persistence.py` — ledger deduplication (`deduplicate_history`) and the
  idempotent artifact-save operations (`save_slip_text_if_new`,
  `save_range_report_if_new`), with the file system modelled as an
  association list from file names to contents.
* `src/webapp.py` — the voucher-range report pipeline (`voucher_range`):
  integer parsing of voucher ids, window filtering, stable ascending sort,
  Indian-system digit grouping (`_format_indian_number`) and amount
  rendering.
-/

namespace Coconut

/-! ## Rounding model (`decimal.ROUND_HALF_EVEN`)

`roundHalfEven` is the specification-level rounding function on exact
rationals; `roundHalfEvenInt` is the executable version on a mantissa
(round `n / 10^k` to the nearest integer, ties to even), which is what the
`Dec` operations below use.  They are proved to agree. -/

/-- Round a rational to the nearest integer, ties to the even neighbour —
the semantics of `Decimal.quantize(Decimal("1"), rounding=ROUND_HALF_EVEN)`. -/
def roundHalfEven (q : ℚ) : ℤ :=
  if q - ⌊q⌋ < 1/2 then ⌊q⌋
  else if 1/2 < q - ⌊q⌋ then ⌊q⌋ + 1
  else if ⌊q⌋ % 2 = 0 then ⌊q⌋ else ⌊q⌋ + 1

/-- Executable half-even rounding of `n / 10^k` using integer arithmetic. -/
def roundHalfEvenInt (n : ℤ) (k : ℕ) : ℤ :=
  if 2 * (n % 10 ^ k) < 10 ^ k then n / 10 ^ k
  else if (10 : ℤ) ^ k < 2 * (n % 10 ^ k) then n / 10 ^ k + 1
  else if (n / 10 ^ k) % 2 = 0 then n / 10 ^ k else n / 10 ^ k + 1

/-! ## Exact model of Python `Decimal` values -/

/-- A finite decimal number `m * 10^(-s)`, the exact content of a Python
`Decimal` with non-positive exponent (all values arising in `src/core.py`
have this form). -/
structure Dec where
  m : ℤ
  s : ℕ
deriving DecidableEq

namespace Dec

/-- The exact rational value of a decimal. -/
def toRat (a : Dec) : ℚ := (a.m : ℚ) / 10 ^ a.s

/-- Decimal multiplication (exact). -/
def mul (a b : Dec) : Dec := ⟨a.m * b.m, a.s + b.s⟩

/-- Decimal subtraction (exact, on the common scale). -/
def sub (a b : Dec) : Dec :=
  let t := max a.s b.s
  ⟨a.m * 10 ^ (t - a.s) - b.m * 10 ^ (t - b.s), t⟩

/-- Division by `10^k` — a pure scale shift, exact.  The only division in
`src/core.py` is `labor_percent / Decimal("100")`, i.e. `k = 2`. -/
def divPow10 (a : Dec) (k : ℕ) : Dec := ⟨a.m, a.s + k⟩

/-- Numeric comparison of decimals (`Decimal.__le__`). -/
def le (a b : Dec) : Prop := a.m * 10 ^ b.s ≤ b.m * 10 ^ a.s

instance : LE Dec := ⟨Dec.le⟩

instance decLe (a b : Dec) : Decidable (a ≤ b) :=
  inferInstanceAs (Decidable (a.m * 10 ^ b.s ≤ b.m * 10 ^ a.s))

/-- `Decimal.quantize(Decimal("0.1")^t, rounding=ROUND_HALF_EVEN)`:
re-express on scale `t`, rounding half-even when precision is lost. -/
def quantizeTo (a : Dec) (t : ℕ) : Dec :=
  if a.s ≤ t then ⟨a.m * 10 ^ (t - a.s), t⟩
  else ⟨roundHalfEvenInt a.m (a.s - t), t⟩

end Dec

/-- The literal `Decimal("0.022")`. -/
def wasteRate : Dec := ⟨22, 3⟩

/-- `_quantize_money`: quantize to two decimal places using HALF_EVEN. -/
def quantizeMoney (a : Dec) : Dec := a.quantizeTo 2

/-- Specification-side two-decimal half-even quantization on exact
rationals. -/
def quantizeMoneyQ (q : ℚ) : ℚ := (roundHalfEven (q * 100) : ℚ) / 100

/-! ## `src/core.py`: data model and calculation engine -/

/-- A calendar date (only the fields used by file naming matter here). -/
structure SimpleDate where
  year : Nat
  month : Nat
  day : Nat
deriving DecidableEq

/-- `CalculationInput` from `src/core.py`. -/
structure CalculationInput where
  invoice_no : String
  client_no : ℤ
  client_name : String
  total_nuts : ℤ
  price_each_rupees : Dec
  date : SimpleDate
  labor_percent : Dec := ⟨11, 0⟩
deriving DecidableEq

/-- `CalculationResult` from `src/core.py`. -/
structure CalculationResult where
  invoice_no : String
  client_no : ℤ
  client_name : String
  date : SimpleDate
  total_nuts : ℤ
  price_each_rupees : Dec
  labor_percent : Dec
  waste_nuts : ℤ
  remaining_nuts : ℤ
  gross_amount : Dec
  tax_amount : Dec
  labor_charges : Dec
  final_amount : Dec
deriving DecidableEq

/-- `_round_waste_to_nearest_integer_half_even`: 2.2% waste, banker's
rounding to the nearest integer. -/
def roundWasteToNearestIntegerHalfEven (nuts : ℤ) : ℤ :=
  ((Dec.mul ⟨nuts, 0⟩ wasteRate).quantizeTo 0).m

/-- The success branch of `calculate` (all derived fields). -/
def mkResult (i : CalculationInput) : CalculationResult :=
  let waste_nuts := roundWasteToNearestIntegerHalfEven i.total_nuts
  let remaining_nuts := i.total_nuts - waste_nuts
  let gross0 : Dec := Dec.mul ⟨remaining_nuts, 0⟩ i.price_each_rupees
  let tax0 : Dec := Dec.mul gross0 ⟨1, 2⟩
  let labor0 : Dec := Dec.mul ⟨i.total_nuts, 0⟩ (i.labor_percent.divPow10 2)
  let final0 : Dec := (gross0.sub tax0).sub labor0
  { invoice_no := i.invoice_no
    client_no := i.client_no
    client_name := i.client_name
    date := i.date
    total_nuts := i.total_nuts
    price_each_rupees := quantizeMoney i.price_each_rupees
    labor_percent := i.labor_percent
    waste_nuts := waste_nuts
    remaining_nuts := remaining_nuts
    gross_amount := quantizeMoney gross0
    tax_amount := quantizeMoney tax0
    labor_charges := quantizeMoney labor0
    final_amount := quantizeMoney final0 }

/-- `calculate` from `src/core.py`: validation, then derivation.  Raising
`ValueError` is modelled as `Except.error` with the source's message. -/
def calculate (i : CalculationInput) : Except String CalculationResult :=
  if i.total_nuts ≤ 0 then
    .error "Total coconuts must be a positive integer"
  else if i.price_each_rupees ≤ (⟨0, 0⟩ : Dec) then
    .error "Price per coconut must be a positive number"
  else if i.invoice_no = "" then
    .error "V.No. (invoice number) must be a non-empty string"
  else if i.client_no < 0 then
    .error "Client number must be >= 0"
  else
    .ok (mkResult i)

/-! ## String helpers (modelling the Python `str` methods used) -/

/-- `str.strip()` with no argument: drop whitespace from both ends. -/
def strTrim (s : String) : String :=
  String.mk ((s.toList.dropWhile Char.isWhitespace).reverse.dropWhile Char.isWhitespace).reverse

/-- `str.lower()` (ASCII case folding suffices for this data). -/
def strToLower (s : String) : String := String.mk (s.toList.map Char.toLower)

/-- `str[:n]` — first `n` characters. -/
def strTake (s : String) (n : ℕ) : String := String.mk (s.toList.take n)

/-- `sep.join(pieces)`. -/
def joinSep (sep : String) : List String → String
  | [] => ""
  | [x] => x
  | x :: y :: rest => x ++ sep ++ joinSep sep (y :: rest)

/-- `str.ljust(w)` — pad on the right with spaces to width `w`. -/
def padRight (s : String) (w : ℕ) : String :=
  s ++ String.mk (List.replicate (w - s.length) ' ')

/-- `str.rjust(w)` — pad on the left with spaces to width `w`. -/
def padLeft (s : String) (w : ℕ) : String :=
  String.mk (List.replicate (w - s.length) ' ') ++ s

/-- Helper for `str.split()` (split on whitespace runs, no empty pieces). -/
def splitWsAux : List Char → List Char → List (List Char)
  | [], acc => if acc = [] then [] else [acc.reverse]
  | c :: rest, acc =>
    if c.isWhitespace then
      if acc = [] then splitWsAux rest [] else acc.reverse :: splitWsAux rest []
    else splitWsAux rest (c :: acc)

/-- `str.split()` with no argument. -/
def splitWhitespace (s : String) : List String := (splitWsAux s.toList []).map String.mk

/-- `str.replace(" ", "")` — remove every space. -/
def removeSpaces (s : String) : String :=
  String.mk (s.toList.filter fun c => decide (c ≠ ' '))

/-- Python truthiness-based `a or b or dflt` over optional strings
(`None` and `""` are falsy). -/
def pyGetOr (a b : Option String) (dflt : String) : String :=
  match a with
  | some x => if x ≠ "" then x else match b with
    | some y => if y ≠ "" then y else dflt
    | none => dflt
  | none => match b with
    | some y => if y ≠ "" then y else dflt
    | none => dflt

/-! ## Numeric text parsing (`int(...)` / `float(...)`)

`int` accepts an optional sign and a digit run with single underscores
between digits; `float` additionally accepts a decimal point.  The model
covers plain decimal literals (no exponent / `inf` / `nan` forms — history
amounts are written by `f"{...:.2f}"` and voucher ids are digit strings). -/

/-- A valid digit-and-underscore run: nonempty, ends in a digit, and every
underscore sits between two digits (the first character is checked by the
caller). -/
def intDigitsOk : List Char → Bool
  | [] => false
  | [c] => c.isDigit
  | c :: d :: rest =>
    if c.isDigit then intDigitsOk (d :: rest)
    else c = '_' && d.isDigit && intDigitsOk (d :: rest)

/-- Numeric value of a digit run (underscores already removed). -/
def digitsVal (l : List Char) : ℕ :=
  l.foldl (fun acc c => acc * 10 + (c.toNat - 48)) 0

/-- Strip the underscores a Python numeric literal may contain. -/
def stripUnderscores (l : List Char) : List Char :=
  l.filter fun c => decide (c ≠ '_')

/-- Shared digit-group check: nonempty, starts with a digit, valid run. -/
def digitGroupOk (l : List Char) : Bool :=
  match l with
  | [] => false
  | c :: _ => c.isDigit && intDigitsOk l

/-- `int(s)` on a stripped string (as used by `voucher_range`). -/
def parsePyInt (s : String) : Option ℤ :=
  let body := (strTrim s).toList
  let signed : ℤ × List Char :=
    match body with
    | '+' :: rest => (1, rest)
    | '-' :: rest => (-1, rest)
    | l => (1, l)
  if digitGroupOk signed.2 then
    some (signed.1 * (digitsVal (stripUnderscores signed.2) : ℤ))
  else none

/-- `float(s)` for plain decimal literals, returned as an exact decimal. -/
def parsePyFloat (s : String) : Option Dec :=
  let body := (strTrim s).toList
  let signed : ℤ × List Char :=
    match body with
    | '+' :: rest => (1, rest)
    | '-' :: rest => (-1, rest)
    | l => (1, l)
  let ip := signed.2.takeWhile fun c => decide (c ≠ '.')
  match signed.2.dropWhile fun c => decide (c ≠ '.') with
  | [] =>
    if digitGroupOk ip then some ⟨signed.1 * (digitsVal (stripUnderscores ip) : ℤ), 0⟩
    else none
  | _ :: fp =>
    if fp.any (fun c => decide (c = '.')) then none
    else if (ip = [] || digitGroupOk ip) && (fp = [] || digitGroupOk fp)
            && !(ip = [] && fp = []) then
      let ipv := digitsVal (stripUnderscores ip)
      let fpl := (stripUnderscores fp).length
      let fpv := digitsVal (stripUnderscores fp)
      some ⟨signed.1 * ((ipv * 10 ^ fpl + fpv : ℕ) : ℤ), fpl⟩
    else none

/-- `int(x)` on a number: truncation toward zero. -/
def pyTruncDec (a : Dec) : ℤ :=
  if a.m < 0 then -((-a.m) / 10 ^ a.s) else a.m / 10 ^ a.s

/-- `round(x)` on a number: nearest integer, ties to even. -/
def pyRoundDec (a : Dec) : ℤ := roundHalfEvenInt a.m a.s

/-! ## `src/persistence.py`: ledger rows and deduplication -/

/-- A history CSV row (only the fields the aggregation logic reads).  Each
field models `row.get(<header>)`; the `legacy_` fields are the alternate
historical header names `"Name"`, `"V.No."` and `"Amount"`. -/
structure Row where
  client_name : Option String := none
  legacy_name : Option String := none
  v_no : Option String := none
  legacy_v_no : Option String := none
  final_amount : Option String := none
  legacy_amount : Option String := none
deriving DecidableEq

/-- The duplicate key of `deduplicate_history`: lower-cased trimmed name,
trimmed voucher text, trimmed final-amount text. -/
def dedupKey (r : Row) : String × String × String :=
  (strToLower (strTrim (pyGetOr r.client_name r.legacy_name "")),
   strTrim (pyGetOr r.v_no r.legacy_v_no ""),
   strTrim (pyGetOr r.final_amount r.legacy_amount ""))

/-- The row loop of `deduplicate_history`: keep a row iff its key is
unseen; count the dropped rows. -/
def dedupLoop : List Row → List (String × String × String) → List Row × ℕ
  | [], _ => ([], 0)
  | r :: rs, seen =>
    if dedupKey r ∈ seen then
      ((dedupLoop rs seen).1, (dedupLoop rs seen).2 + 1)
    else
      (r :: (dedupLoop rs (dedupKey r :: seen)).1, (dedupLoop rs (dedupKey r :: seen)).2)

/-- `deduplicate_history` on the in-memory row list (the CSV read/write
around it is I/O plumbing); returns the kept rows and the removed count. -/
def deduplicateHistory (rows : List Row) : List Row × ℕ :=
  if rows = [] then ([], 0) else dedupLoop rows []

/-- Specification-side description of deduplication: keep each key's first
occurrence, dropping every later row with the same key. -/
def firstOccurrences : List Row → List Row
  | [] => []
  | r :: rs =>
    r :: firstOccurrences (rs.filter fun x => decide (dedupKey x ≠ dedupKey r))
termination_by l => l.length
decreasing_by
  simp only [List.length_cons]
  exact Nat.lt_succ_of_le (List.length_filter_le _ _)

/-! ## `src/persistence.py`: artifact naming and idempotent saves

The slips / range-reports directory is modelled as an association list
from file name to file content; `path.exists()` is a lookup and
`path.write_text` prepends a binding. -/

abbrev FileStore := List (String × String)

/-- `%02d`-style zero padding of a month or day. -/
def pad2 (n : ℕ) : String := if n < 10 then "0" ++ toString n else toString n

/-- Four-digit year of `strftime("%Y...")`. -/
def pad4 (n : ℕ) : String :=
  let s := toString n
  String.mk (List.replicate (4 - s.length) '0') ++ s

/-- `date.strftime("%Y%m%d")`. -/
def dateTag (d : SimpleDate) : String := pad4 d.year ++ pad2 d.month ++ pad2 d.day

/-- `_shorten_client_name`. -/
def shortenClientName (name : String) : String :=
  match splitWhitespace name with
  | [] => "Client"
  | [p] => strTake p 16
  | p :: q :: rest => strTake (p ++ (q :: rest).getLast (List.cons_ne_nil q rest)) 24

/-- `slip_filename`. -/
def slipFilename (r : CalculationResult) : String :=
  "VNo" ++ r.invoice_no ++ "_" ++ dateTag r.date ++ "_"
    ++ removeSpaces (shortenClientName r.client_name) ++ ".txt"

/-- `save_slip_text_if_new`: returns `((path, was_created), store)`. -/
def saveSlipTextIfNew (fs : FileStore) (r : CalculationResult) (content : String) :
    (String × Bool) × FileStore :=
  let path := slipFilename r
  match fs.lookup path with
  | some _ => ((path, false), fs)
  | none => ((path, true), (path, content) :: fs)

/-- Fixpoint of the `while "__" in safe` collapsing loop: every run of
underscores becomes a single underscore. -/
def collapseUnderscores : List Char → List Char
  | [] => []
  | c :: rest =>
    let tail := collapseUnderscores rest
    if c = '_' then
      match tail with
      | '_' :: _ => tail
      | _ => c :: tail
    else c :: tail

/-- Characters removed from both ends by `strip("._")`. -/
def isStripDot (c : Char) : Bool := c = '.' || c = '_'

/-- `_sanitize_filename_component`. -/
def sanitizeFilenameComponent (text : String) : String :=
  let safe := (strTrim text).toList.map fun c =>
    if c.isAlphanum || c = '-' || c = '_' then c else '_'
  let collapsed := collapseUnderscores safe
  let stripped := ((collapsed.dropWhile isStripDot).reverse.dropWhile isStripDot).reverse
  if stripped = [] then "NA" else String.mk stripped

/-- `_range_report_path` (the file name within the reports directory). -/
def rangeReportPath (party : String) (fromV toV : ℤ) (d : SimpleDate) : String :=
  dateTag d ++ "_V" ++ toString fromV ++ "-" ++ toString toV ++ "_"
    ++ sanitizeFilenameComponent party ++ ".txt"

/-- `save_range_report_if_new`; `nowText` models `datetime.utcnow()`,
an input read from the clock at call time. -/
def saveRangeReportIfNew (fs : FileStore) (party : String) (fromV toV : ℤ)
    (reportText : String) (d : SimpleDate) (nowText : String) :
    (String × Bool) × FileStore :=
  let path := rangeReportPath party fromV toV d
  match fs.lookup path with
  | some _ => ((path, false), fs)
  | none =>
    let header := "Party: " ++ party ++ "\nRange: " ++ toString fromV ++ ".."
      ++ toString toV ++ "\nSaved At (UTC): " ++ nowText ++ "\n\n"
    ((path, true), (path, header ++ reportText) :: fs)

/-! ## `src/webapp.py`: Indian number formatting and the range report -/

/-- Grouping loop of `_format_indian_number`, on the reversed digit list:
peel two digits at a time (the `while len(rest) > 2` loop), the leftover
one or two digits forming the final (leftmost) group. -/
def groupsRev : List Char → List (List Char)
  | [] => []
  | [c] => [[c]]
  | c :: d :: rest => [d, c] :: groupsRev rest

/-- The `groups` list built by `_format_indian_number` for the digits in
front of the last three. -/
def indianGroups (rest : List Char) : List (List Char) :=
  (groupsRev rest.reverse).reverse

/-- `_format_indian_number`: absolute value, last three digits as one
group, then groups of two, comma-separated. -/
def formatIndianNumber (n : ℤ) : String :=
  let s := (toString n.natAbs).toList
  if s.length ≤ 3 then String.mk s
  else
    let last3 := s.drop (s.length - 3)
    let rest := s.take (s.length - 3)
    joinSep "," ((indianGroups rest ++ [last3]).map String.mk)

/-- `f"{p:02d}"`: zero-pad to width two (a sign counts toward the width). -/
def pyFormat02d (p : ℤ) : String :=
  if 0 ≤ p ∧ p < 10 then "0" ++ toString p else toString p

/-- `r.get("v_no") or r.get("V.No.") or ""`. -/
def vnoText (r : Row) : String := pyGetOr r.v_no r.legacy_v_no ""

/-- `(r.get("client_name") or r.get("Name") or "").strip()`. -/
def clientNameText (r : Row) : String := strTrim (pyGetOr r.client_name r.legacy_name "")

/-- `r.get("final_amount") or r.get("Amount") or "0"`. -/
def amountText (r : Row) : String := pyGetOr r.final_amount r.legacy_amount "0"

/-- `float(amount)` with the `except: amt = 0.0` fallback. -/
def amountValue (r : Row) : Dec := (parsePyFloat (amountText r)).getD ⟨0, 0⟩

/-- Window normalisation `if a > b: a, b = b, a`. -/
def voucherWindow (a b : ℤ) : ℤ × ℤ := if a > b then (b, a) else (a, b)

/-- The filter loop of `voucher_range`: parse each row's voucher id,
silently skipping non-numeric ones, and keep ids in the inclusive window. -/
def voucherRangeFiltered (rows : List Row) (a b : ℤ) : List (ℤ × Row) :=
  let w := voucherWindow a b
  rows.filterMap fun r =>
    match parsePyInt (vnoText r) with
    | none => none
    | some v => if w.1 ≤ v ∧ v ≤ w.2 then some (v, r) else none

/-- Sort key comparison for `filtered.sort(key=lambda t: t[0])`. -/
def keyLE (x y : ℤ × Row) : Prop := x.1 ≤ y.1

instance : DecidableRel keyLE := fun x y => inferInstanceAs (Decidable (x.1 ≤ y.1))

/-- `filtered.sort(key=lambda t: t[0])`: the stable ascending sort. -/
def voucherRangeSorted (rows : List Row) (a b : ℤ) : List (ℤ × Row) :=
  List.insertionSort keyLE (voucherRangeFiltered rows a b)

/-- The paise value computed for one report amount:
`int(round((amt - rupees) * 100))`. -/
def paiseOf (a : Dec) : ℤ :=
  pyRoundDec ((a.sub ⟨pyTruncDec a, 0⟩).mul ⟨100, 0⟩)

/-- The rupees/paise rendering of one amount in the report:
`_format_indian_number(rupees)` plus `".NN"` when the paise are nonzero. -/
def formatAmountText (a : Dec) : String :=
  formatIndianNumber (pyTruncDec a) ++
    (if paiseOf a ≠ 0 then "." ++ pyFormat02d (paiseOf a) else "")

/-- One `(label, amount-text)` report entry. -/
def entryOf (v : ℤ) (r : Row) : String × String :=
  (clientNameText r ++ " (" ++ toString v ++ ")", formatAmountText (amountValue r))

/-- The entry list of the range report, in display order. -/
def voucherRangeEntries (rows : List Row) (a b : ℤ) : List (String × String) :=
  (voucherRangeSorted rows a b).map fun p => entryOf p.1 p.2

/-- Specification-side statement of South-Asian digit grouping: either at
most three digits shown as-is, or a comma-joined decomposition whose last
group has exactly three digits, middle groups two, and leading group one
or two, concatenating back to the digit string. -/
def IndianGrouped (out : String) (ds : List Char) : Prop :=
  (ds.length ≤ 3 ∧ out = String.mk ds) ∨
  (3 < ds.length ∧ ∃ g0 gs last3,
    out = joinSep "," ((g0 :: gs ++ [last3]).map String.mk) ∧
    (g0 :: gs ++ [last3]).flatten = ds ∧
    last3.length = 3 ∧ (∀ g ∈ gs, g.length = 2) ∧
    1 ≤ g0.length ∧ g0.length ≤ 2)

/-- The fixed no-results marker of `voucher_range`. -/
def noVouchersFound : String := "No vouchers found in this range"

/-- The report text built by `voucher_range` (or the no-results marker). -/
def voucherRangeReport (rows : List Row) (a b : ℤ) : String :=
  if voucherRangeFiltered rows a b = [] then noVouchersFound
  else
    let entries := voucherRangeEntries rows a b
    if entries = [] then noVouchersFound
    else
      let nameWidth := (entries.map fun e => e.1.length).foldl max 0
      let amtWidth := (entries.map fun e => e.2.length).foldl max 0
      let idxWidth := (toString entries.length).length
      let lines := entries.enum.map fun p =>
        padLeft (toString (p.1 + 1)) idxWidth ++ ". " ++ padRight p.2.1 nameWidth
          ++ "  =  " ++ padLeft p.2.2 amtWidth
      joinSep "\n" lines

/-! ## Concrete inputs used by examples, witnesses and counterexamples -/

/-- The spec's end-to-end example input (5670 nuts at 22.00, labor 11%). -/
def exInputSpec : CalculationInput :=
  { invoice_no := "001", client_no := 1, client_name := "Client 01",
    total_nuts := 5670, price_each_rupees := ⟨22, 0⟩, date := ⟨2025, 8, 10⟩ }

/-- 250 nuts: the raw wastage `250 * 0.022 = 5.5` is an exact midpoint. -/
def exInputMidpoint : CalculationInput :=
  { invoice_no := "V1", client_no := 1, client_name := "A",
    total_nuts := 250, price_each_rupees := ⟨22, 0⟩, date := ⟨2025, 8, 10⟩ }

/-- A labor rate of 0.5 percent: the raw labor charge needs three decimal
places, so two-decimal quantization changes it. -/
def exInputHalfPercent : CalculationInput :=
  { invoice_no := "V1", client_no := 1, client_name := "A",
    total_nuts := 1, price_each_rupees := ⟨22, 0⟩, date := ⟨2025, 8, 10⟩,
    labor_percent := ⟨5, 1⟩ }

/-- A sub-cent unit price (0.001): the gross quantizes to 0.00. -/
def exInputTinyPrice : CalculationInput :=
  { invoice_no := "V1", client_no := 1, client_name := "A",
    total_nuts := 1, price_each_rupees := ⟨1, 3⟩, date := ⟨2025, 8, 10⟩ }

/-- Price 10.0001 (for the monotonicity counterexample). -/
def exPriceA : Dec := ⟨100001, 4⟩

/-- Price 10.0002 (for the monotonicity counterexample). -/
def exPriceB : Dec := ⟨100002, 4⟩

/-- One-nut input at a given price (for the monotonicity counterexample). -/
def exInputPrice (p : Dec) : CalculationInput :=
  { invoice_no := "V1", client_no := 1, client_name := "A",
    total_nuts := 1, price_each_rupees := p, date := ⟨2025, 8, 10⟩ }

end Coconut

namespace Coconut

/-! ### Sanity checks -/

example : roundHalfEvenInt 5 1 = 0 := by decide
example : roundHalfEvenInt 25 1 = 2 := by decide
example : roundHalfEvenInt 35 1 = 4 := by decide
example : roundWasteToNearestIntegerHalfEven 5670 = 125 := by decide
example :
    (mkResult { invoice_no := "001", client_no := 1, client_name := "Client 01",
                total_nuts := 5670, price_each_rupees := ⟨22, 0⟩,
                date := ⟨2025, 8, 10⟩ }).final_amount = ⟨12014640, 2⟩ := by decide
example : parsePyInt " 42 " = some 42 := by decide
example : parsePyInt "1_2" = some 12 := by decide
example : parsePyInt "x1" = none := by decide
example : parsePyFloat "-100.50" = some ⟨-10050, 2⟩ := by decide
example : formatIndianNumber 1545468 = "15,45,468" := by decide
example : formatAmountText ⟨-10050, 2⟩ = "100.-50" := by decide
example : formatAmountText ⟨10050, 2⟩ = "100.50" := by decide
example : sanitizeFilenameComponent "  A B..c " = "A_B_c" := by decide
example :
    (voucherRangeSorted
      [{ v_no := some "5" }, { v_no := some "3" }, { v_no := some "9" },
       { v_no := some "1" }] 2 6).map (fun p => p.1) = [3, 5] := by decide

/-! ## Properties of half-even rounding -/

theorem roundHalfEven_le (q : ℚ) : (roundHalfEven q : ℚ) ≤ q + 1/2 := by
  have h1 : (⌊q⌋ : ℚ) ≤ q := Int.floor_le q
  have h2 : q < ⌊q⌋ + 1 := Int.lt_floor_add_one q
  unfold roundHalfEven
  split_ifs with ha hb hc <;> push_cast <;> linarith

theorem le_roundHalfEven (q : ℚ) : q - 1/2 ≤ (roundHalfEven q : ℚ) := by
  have h1 : (⌊q⌋ : ℚ) ≤ q := Int.floor_le q
  have h2 : q < ⌊q⌋ + 1 := Int.lt_floor_add_one q
  unfold roundHalfEven
  split_ifs with ha hb hc <;> push_cast <;> linarith

theorem roundHalfEven_intCast (z : ℤ) : roundHalfEven (z : ℚ) = z := by
  unfold roundHalfEven
  rw [Int.floor_intCast]
  norm_num

theorem roundHalfEven_tie (k : ℤ) :
    roundHalfEven ((k : ℚ) + 1/2) = if k % 2 = 0 then k else k + 1 := by
  have hfl : ⌊(k : ℚ) + 1/2⌋ = k := by
    rw [add_comm, Int.floor_add_int]
    norm_num
  unfold roundHalfEven
  rw [hfl]
  have hfr : (k : ℚ) + 1/2 - (k : ℚ) = 1/2 := by ring
  rw [hfr]
  norm_num

theorem roundHalfEven_mono {p q : ℚ} (h : p ≤ q) :
    roundHalfEven p ≤ roundHalfEven q := by
  by_contra hlt
  push_neg at hlt
  have hb1 := roundHalfEven_le p
  have hb2 := le_roundHalfEven q
  have hb3 := roundHalfEven_le q
  have hb4 := le_roundHalfEven p
  have hup : (roundHalfEven q : ℚ) + 1 ≤ (roundHalfEven p : ℚ) := by
    have hz : roundHalfEven q + 1 ≤ roundHalfEven p := hlt
    exact_mod_cast hz
  have hpq : p = q := le_antisymm h (by linarith)
  have hrp : (roundHalfEven p : ℚ) = p + 1/2 := le_antisymm hb1 (by linarith)
  have hrq : (roundHalfEven q : ℚ) = q - 1/2 := le_antisymm (by linarith) hb2
  -- q is an exact midpoint below which the value was kept: its floor is even
  have hqk : q = ((roundHalfEven q : ℤ) : ℚ) + 1/2 := by linarith
  have htq := roundHalfEven_tie (roundHalfEven q)
  rw [← hqk] at htq
  have hqeven : roundHalfEven q % 2 = 0 := by
    by_contra ho
    rw [if_neg ho] at htq
    omega
  -- p is an exact midpoint that was rounded up: its floor is odd
  have hpk : p = ((roundHalfEven p - 1 : ℤ) : ℚ) + 1/2 := by push_cast; linarith
  have htp := roundHalfEven_tie (roundHalfEven p - 1)
  rw [← hpk] at htp
  have hpodd : (roundHalfEven p - 1) % 2 ≠ 0 := by
    by_contra he
    rw [if_pos he] at htp
    omega
  -- but p = q forces the two floors to coincide
  have hsame : roundHalfEven p - 1 = roundHalfEven q := by
    have : ((roundHalfEven p - 1 : ℤ) : ℚ) = ((roundHalfEven q : ℤ) : ℚ) := by
      push_cast
      linarith [hpq ▸ hpk, hqk]
    exact_mod_cast this
  omega

theorem roundHalfEven_neg (q : ℚ) : roundHalfEven (-q) = -roundHalfEven q := by
  have h1 : (⌊q⌋ : ℚ) ≤ q := Int.floor_le q
  have h2 : q < ⌊q⌋ + 1 := Int.lt_floor_add_one q
  rcases eq_or_ne ((⌊q⌋ : ℚ)) q with h0 | h0
  · rw [← h0, ← Int.cast_neg, roundHalfEven_intCast, roundHalfEven_intCast]
  · have hlt : (⌊q⌋ : ℚ) < q := lt_of_le_of_ne h1 h0
    have hfl : ⌊-q⌋ = -⌊q⌋ - 1 := by
      rw [Int.floor_eq_iff]
      constructor
      · push_cast
        linarith
      · push_cast
        linarith
    unfold roundHalfEven
    rw [hfl]
    push_cast
    split_ifs <;> first
      | omega
      | (exfalso; linarith)

/-- Closed form of `roundHalfEven` at a quotient `(f*d + r)/d` with
`0 ≤ r < d`: this is exactly the integer branch structure of
`roundHalfEvenInt`. -/
theorem roundHalfEven_decompose (f r d : ℤ) (hd : 0 < d) (hr : 0 ≤ r) (hrd : r < d) :
    roundHalfEven (((f * d + r : ℤ) : ℚ) / (d : ℚ)) =
      if 2 * r < d then f
      else if d < 2 * r then f + 1
      else if f % 2 = 0 then f else f + 1 := by
  have hd0 : (0 : ℚ) < (d : ℚ) := by exact_mod_cast hd
  have hq : ((f * d + r : ℤ) : ℚ) / d = (f : ℚ) + (r : ℚ) / d := by
    push_cast
    field_simp
  have hfr0 : (0 : ℚ) ≤ (r : ℚ) / d := by
    apply div_nonneg _ (le_of_lt hd0)
    exact_mod_cast hr
  have hfr1 : (r : ℚ) / d < 1 := by
    rw [div_lt_one hd0]
    exact_mod_cast hrd
  have hfl : ⌊((f * d + r : ℤ) : ℚ) / d⌋ = f := by
    rw [hq, add_comm, Int.floor_add_int, Int.floor_eq_zero_iff.mpr ⟨hfr0, hfr1⟩, zero_add]
  have hfract : ((f * d + r : ℤ) : ℚ) / d - (f : ℚ) = (r : ℚ) / d := by
    rw [hq]
    ring
  have hc1 : ((r : ℚ) / d < 1/2) ↔ (2 * r < d) := by
    rw [div_lt_iff hd0]
    constructor <;> intro h
    · exact_mod_cast (by linarith : (2 : ℚ) * r < d)
    · have hz : (2 : ℚ) * (r : ℚ) < (d : ℚ) := by exact_mod_cast h
      linarith
  have hc2 : (1/2 < (r : ℚ) / d) ↔ (d < 2 * r) := by
    rw [lt_div_iff hd0]
    constructor <;> intro h
    · exact_mod_cast (by linarith : (d : ℚ) < 2 * r)
    · have hz : (d : ℚ) < (2 : ℚ) * (r : ℚ) := by exact_mod_cast h
      linarith
  unfold roundHalfEven
  rw [hfl, hfract]
  simp only [hc1, hc2]

/-- The executable integer rounding agrees with the rational one. -/
theorem roundHalfEvenInt_eq (n : ℤ) (k : ℕ) :
    roundHalfEvenInt n k = roundHalfEven ((n : ℚ) / (10 : ℚ) ^ k) := by
  have hd : (0 : ℤ) < 10 ^ k := by positivity
  have hsplit : n = (n / 10 ^ k) * 10 ^ k + n % 10 ^ k := by
    rw [mul_comm]
    exact (Int.ediv_add_emod n _).symm
  have hr0 : 0 ≤ n % 10 ^ k := Int.emod_nonneg n (by positivity)
  have hrd : n % 10 ^ k < 10 ^ k := Int.emod_lt_of_pos n hd
  have hcast : ((10 : ℚ)) ^ k = ((10 ^ k : ℤ) : ℚ) := by push_cast; ring
  rw [hcast]
  have harg : (n : ℚ) = (((n / 10 ^ k) * 10 ^ k + n % 10 ^ k : ℤ) : ℚ) := by
    exact_mod_cast congrArg (fun z : ℤ => (z : ℚ)) hsplit
  rw [harg, roundHalfEven_decompose _ _ _ hd hr0 hrd]
  rfl

/-! ## The `Dec` model computes exact rational values -/

theorem pow_split_div (m : ℤ) (u t : ℕ) (h : u ≤ t) :
    ((m : ℚ) * 10 ^ (t - u)) / 10 ^ t = (m : ℚ) / 10 ^ u := by
  have hsplit : (10 : ℚ) ^ t = 10 ^ (t - u) * 10 ^ u := by
    rw [← pow_add, Nat.sub_add_cancel h]
  rw [hsplit, mul_comm ((m : ℚ)) _, mul_div_mul_left _ _ (by positivity : ((10 : ℚ) ^ (t - u)) ≠ 0)]

theorem Dec.toRat_mul (a b : Dec) : (a.mul b).toRat = a.toRat * b.toRat := by
  unfold Dec.mul Dec.toRat
  push_cast
  rw [pow_add]
  field_simp

theorem Dec.toRat_sub (a b : Dec) : (a.sub b).toRat = a.toRat - b.toRat := by
  unfold Dec.sub Dec.toRat
  push_cast
  rw [sub_div, pow_split_div a.m a.s _ (le_max_left a.s b.s),
    pow_split_div b.m b.s _ (le_max_right a.s b.s)]

theorem Dec.toRat_divPow10 (a : Dec) (k : ℕ) :
    (a.divPow10 k).toRat = a.toRat / 10 ^ k := by
  unfold Dec.divPow10 Dec.toRat
  rw [pow_add, div_div]

theorem Dec.le_iff (a b : Dec) : a ≤ b ↔ a.toRat ≤ b.toRat := by
  show Dec.le a b ↔ _
  unfold Dec.le Dec.toRat
  rw [div_le_div_iff (by positivity) (by positivity)]
  constructor <;> intro h <;> exact_mod_cast h

theorem Dec.toRat_quantizeTo (a : Dec) (t : ℕ) :
    (a.quantizeTo t).toRat = (roundHalfEven (a.toRat * 10 ^ t) : ℚ) / 10 ^ t := by
  unfold Dec.quantizeTo
  split_ifs with h
  · have harg : a.toRat * 10 ^ t = ((a.m * 10 ^ (t - a.s) : ℤ) : ℚ) := by
      unfold Dec.toRat
      push_cast
      rw [div_mul_eq_mul_div, div_eq_iff (by positivity : ((10 : ℚ) ^ a.s) ≠ 0)]
      rw [mul_assoc, ← pow_add, Nat.sub_add_cancel h]
    rw [harg, roundHalfEven_intCast]
    unfold Dec.toRat
    rfl
  · have harg : a.toRat * 10 ^ t = (a.m : ℚ) / (10 : ℚ) ^ (a.s - t) := by
      unfold Dec.toRat
      have hsplit : (10 : ℚ) ^ a.s = 10 ^ (a.s - t) * 10 ^ t := by
        rw [← pow_add, Nat.sub_add_cancel (le_of_not_le h)]
      rw [hsplit, div_mul_eq_mul_div, mul_comm ((10 : ℚ) ^ (a.s - t)) _, ← div_div,
        mul_div_assoc, div_self (by positivity : ((10 : ℚ) ^ t) ≠ 0), mul_one]
    rw [harg, ← roundHalfEvenInt_eq]
    rfl

theorem toRat_quantizeMoney (a : Dec) :
    (quantizeMoney a).toRat = quantizeMoneyQ a.toRat := by
  unfold quantizeMoney quantizeMoneyQ
  rw [Dec.toRat_quantizeTo]
  norm_num

theorem quantizeMoneyQ_mono {p q : ℚ} (h : p ≤ q) :
    quantizeMoneyQ p ≤ quantizeMoneyQ q := by
  unfold quantizeMoneyQ
  have hm : roundHalfEven (p * 100) ≤ roundHalfEven (q * 100) :=
    roundHalfEven_mono (by linarith)
  have hc : ((roundHalfEven (p * 100) : ℤ) : ℚ) ≤ ((roundHalfEven (q * 100) : ℤ) : ℚ) := by
    exact_mod_cast hm
  linarith

theorem quantizeMoneyQ_nonneg {q : ℚ} (h : 0 ≤ q) : 0 ≤ quantizeMoneyQ q := by
  unfold quantizeMoneyQ
  have hb := le_roundHalfEven (q * 100)
  have hge : 0 ≤ roundHalfEven (q * 100) := by
    by_contra hneg
    push_neg at hneg
    have hz : roundHalfEven (q * 100) ≤ -1 := by omega
    have hzq : (roundHalfEven (q * 100) : ℚ) ≤ -1 := by exact_mod_cast hz
    linarith
  have : (0 : ℚ) ≤ (roundHalfEven (q * 100) : ℚ) := by exact_mod_cast hge
  linarith

theorem quantizeMoneyQ_exact (z : ℤ) : quantizeMoneyQ ((z : ℚ) / 100) = (z : ℚ) / 100 := by
  unfold quantizeMoneyQ
  rw [div_mul_cancel₀ _ (by norm_num : (100 : ℚ) ≠ 0), roundHalfEven_intCast]

theorem zeroDec_toRat : (⟨0, 0⟩ : Dec).toRat = 0 := by
  unfold Dec.toRat
  norm_num

theorem intDec_toRat (z : ℤ) : (⟨z, 0⟩ : Dec).toRat = (z : ℚ) := by
  unfold Dec.toRat
  norm_num

/-! ## Core engine lemmas -/

theorem calculate_ok (i : CalculationInput) (h1 : 0 < i.total_nuts)
    (h2 : ¬ i.price_each_rupees ≤ (⟨0, 0⟩ : Dec)) (h3 : i.invoice_no ≠ "")
    (h4 : 0 ≤ i.client_no) : calculate i = .ok (mkResult i) := by
  unfold calculate
  rw [if_neg (by omega), if_neg h2, if_neg h3, if_neg (by omega)]

theorem mkResult_waste (i : CalculationInput) :
    (mkResult i).waste_nuts = roundWasteToNearestIntegerHalfEven i.total_nuts := rfl

theorem mkResult_remaining (i : CalculationInput) :
    (mkResult i).remaining_nuts =
      i.total_nuts - roundWasteToNearestIntegerHalfEven i.total_nuts := rfl

theorem mkResult_gross (i : CalculationInput) :
    (mkResult i).gross_amount =
      quantizeMoney (Dec.mul
        ⟨i.total_nuts - roundWasteToNearestIntegerHalfEven i.total_nuts, 0⟩
        i.price_each_rupees) := rfl

theorem mkResult_tax (i : CalculationInput) :
    (mkResult i).tax_amount =
      quantizeMoney (Dec.mul (Dec.mul
        ⟨i.total_nuts - roundWasteToNearestIntegerHalfEven i.total_nuts, 0⟩
        i.price_each_rupees) ⟨1, 2⟩) := rfl

theorem mkResult_labor (i : CalculationInput) :
    (mkResult i).labor_charges =
      quantizeMoney (Dec.mul ⟨i.total_nuts, 0⟩ (i.labor_percent.divPow10 2)) := rfl

theorem mkResult_final (i : CalculationInput) :
    (mkResult i).final_amount =
      quantizeMoney
        (((Dec.mul ⟨i.total_nuts - roundWasteToNearestIntegerHalfEven i.total_nuts, 0⟩
            i.price_each_rupees).sub
          (Dec.mul (Dec.mul
            ⟨i.total_nuts - roundWasteToNearestIntegerHalfEven i.total_nuts, 0⟩
            i.price_each_rupees) ⟨1, 2⟩)).sub
          (Dec.mul ⟨i.total_nuts, 0⟩ (i.labor_percent.divPow10 2))) := rfl

theorem roundWaste_eq (n : ℤ) :
    roundWasteToNearestIntegerHalfEven n = roundHalfEven ((n : ℚ) * (22/1000)) := by
  have h : roundWasteToNearestIntegerHalfEven n = roundHalfEvenInt (n * 22) 3 := rfl
  rw [h, roundHalfEvenInt_eq]
  congr 1
  push_cast
  ring

theorem waste_lt_total (n : ℤ) (hn : 1 ≤ n) :
    roundWasteToNearestIntegerHalfEven n < n := by
  rw [roundWaste_eq]
  have hb := roundHalfEven_le ((n : ℚ) * (22/1000))
  have hn1 : (1 : ℚ) ≤ (n : ℚ) := by exact_mod_cast hn
  have hlt : (roundHalfEven ((n : ℚ) * (22/1000)) : ℚ) < (n : ℚ) := by linarith
  exact_mod_cast hlt

/-- Exact rational value of the price positivity check. -/
theorem price_pos_of_not_le {p : Dec} (h : ¬ p ≤ (⟨0, 0⟩ : Dec)) : 0 < p.toRat := by
  rw [Dec.le_iff, zeroDec_toRat] at h
  exact lt_of_not_le h

/-- The remaining count is positive for every positive total. -/
theorem remaining_pos_rat (n : ℤ) (hn : 0 < n) :
    (0 : ℚ) < ((n - roundWasteToNearestIntegerHalfEven n : ℤ) : ℚ) := by
  have hw := waste_lt_total n (by omega)
  exact_mod_cast (by omega : (0 : ℤ) < n - roundWasteToNearestIntegerHalfEven n)

/-! ## C1: wastage is `n * 0.022` rounded half-to-even -/

/-- C1: for every valid input, the wastage equals `total_nuts * 0.022`
(exact) rounded to the nearest integer half-to-even; at an exact midpoint
`k + 1/2` the result is the even neighbour; and the rounding function sends
a raw 2.5 to 2 and a raw 3.5 to 4. -/
theorem wastage_is_rate_rounded_half_even (i : CalculationInput) (h1 : 0 < i.total_nuts)
    (h2 : ¬ i.price_each_rupees ≤ (⟨0, 0⟩ : Dec)) (h3 : i.invoice_no ≠ "")
    (h4 : 0 ≤ i.client_no) :
    ∃ r, calculate i = .ok r ∧
      r.waste_nuts = roundHalfEven ((i.total_nuts : ℚ) * (22/1000)) ∧
      (∀ k : ℤ, (i.total_nuts : ℚ) * (22/1000) = (k : ℚ) + 1/2 →
        r.waste_nuts % 2 = 0 ∧ (r.waste_nuts = k ∨ r.waste_nuts = k + 1)) ∧
      roundHalfEven (5/2) = 2 ∧ roundHalfEven (7/2) = 4 := by
  refine ⟨mkResult i, calculate_ok i h1 h2 h3 h4, ?_, ?_, ?_, ?_⟩
  · rw [mkResult_waste, roundWaste_eq]
  · intro k hk
    rw [mkResult_waste, roundWaste_eq, hk, roundHalfEven_tie]
    constructor
    · split_ifs with he <;> omega
    · split_ifs with he
      · exact Or.inl rfl
      · exact Or.inr rfl
  · have h52 : (5/2 : ℚ) = ((2 : ℤ) : ℚ) + 1/2 := by norm_num
    rw [h52, roundHalfEven_tie]
    norm_num
  · have h72 : (7/2 : ℚ) = ((3 : ℤ) : ℚ) + 1/2 := by norm_num
    rw [h72, roundHalfEven_tie]
    norm_num

/-- Witness for C1 at the midpoint input `n = 250` (raw wastage 5.5). -/
theorem wastage_is_rate_rounded_half_even_witness :
    ∃ r, calculate exInputMidpoint = .ok r ∧
      r.waste_nuts = roundHalfEven ((exInputMidpoint.total_nuts : ℚ) * (22/1000)) ∧
      (∀ k : ℤ, (exInputMidpoint.total_nuts : ℚ) * (22/1000) = (k : ℚ) + 1/2 →
        r.waste_nuts % 2 = 0 ∧ (r.waste_nuts = k ∨ r.waste_nuts = k + 1)) ∧
      roundHalfEven (5/2) = 2 ∧ roundHalfEven (7/2) = 4 :=
  wastage_is_rate_rounded_half_even exInputMidpoint (by decide) (by decide)
    (by decide) (by decide)

/-! ## C3: validation behaviour of `calculate` -/

/-- C3: `calculate` fails exactly when total units ≤ 0, or the unit price
is ≤ 0, or the invoice id is empty, or the party id is negative; on every
valid input it returns the full derived result, whose remaining count is
total − wastage; no partial result exists in the error case. -/
theorem calculate_validation_iff (i : CalculationInput) :
    ((∃ e, calculate i = .error e) ↔
      (i.total_nuts ≤ 0 ∨ i.price_each_rupees ≤ (⟨0, 0⟩ : Dec) ∨
        i.invoice_no = "" ∨ i.client_no < 0)) ∧
    (¬ (i.total_nuts ≤ 0 ∨ i.price_each_rupees ≤ (⟨0, 0⟩ : Dec) ∨
        i.invoice_no = "" ∨ i.client_no < 0) → calculate i = .ok (mkResult i)) ∧
    (∀ r, calculate i = .ok r →
      r.waste_nuts = roundWasteToNearestIntegerHalfEven i.total_nuts ∧
      r.remaining_nuts = i.total_nuts - roundWasteToNearestIntegerHalfEven i.total_nuts) := by
  refine ⟨⟨?_, ?_⟩, ?_, ?_⟩
  · rintro ⟨e, he⟩
    by_contra hcon
    push_neg at hcon
    obtain ⟨hn, hp, hv, hc⟩ := hcon
    rw [calculate_ok i (by omega) hp hv (by omega)] at he
    cases he
  · intro hd
    unfold calculate
    by_cases hn : i.total_nuts ≤ 0
    · exact ⟨_, by rw [if_pos hn]⟩
    · by_cases hp : i.price_each_rupees ≤ (⟨0, 0⟩ : Dec)
      · exact ⟨_, by rw [if_neg hn, if_pos hp]⟩
      · by_cases hv : i.invoice_no = ""
        · exact ⟨_, by rw [if_neg hn, if_neg hp, if_pos hv]⟩
        · have hc : i.client_no < 0 := by tauto
          exact ⟨_, by rw [if_neg hn, if_neg hp, if_neg hv, if_pos hc]⟩
  · intro hd
    push_neg at hd
    obtain ⟨hn, hp, hv, hc⟩ := hd
    exact calculate_ok i (by omega) hp hv (by omega)
  · intro r hr
    unfold calculate at hr
    split_ifs at hr
    injection hr with h
    exact h ▸ ⟨mkResult_waste i, mkResult_remaining i⟩

/-- Witness for C3: one valid and one invalid concrete input. -/
theorem calculate_validation_iff_witness :
    calculate exInputSpec = .ok (mkResult exInputSpec) ∧
    (∃ e, calculate { exInputSpec with total_nuts := 0 } = .error e) := by
  constructor
  · exact (calculate_validation_iff exInputSpec).2.1 (by decide)
  · exact ((calculate_validation_iff { exInputSpec with total_nuts := 0 }).1).mpr
      (by decide)

/-! ## C9 (amended): wastage < total, remaining ≥ 1, gross nonnegative -/

/-- C9 (amended): for every valid input the wastage is strictly below the
total, so at least one unit remains and the pre-quantization gross
`remaining × price` is strictly positive; the stored two-decimal gross is
nonnegative (but can quantize to 0.00 for sub-cent prices, so it is not
strictly positive). -/
theorem remaining_positive_gross_nonneg (i : CalculationInput) (h1 : 0 < i.total_nuts)
    (h2 : ¬ i.price_each_rupees ≤ (⟨0, 0⟩ : Dec)) (h3 : i.invoice_no ≠ "")
    (h4 : 0 ≤ i.client_no) :
    ∃ r, calculate i = .ok r ∧ r.waste_nuts < i.total_nuts ∧ 1 ≤ r.remaining_nuts ∧
      0 < (r.remaining_nuts : ℚ) * i.price_each_rupees.toRat ∧
      0 ≤ r.gross_amount.toRat := by
  have hw := waste_lt_total i.total_nuts (by omega)
  have hp := price_pos_of_not_le h2
  refine ⟨mkResult i, calculate_ok i h1 h2 h3 h4, ?_, ?_, ?_, ?_⟩
  · rw [mkResult_waste]
    exact hw
  · rw [mkResult_remaining]
    omega
  · rw [mkResult_remaining]
    have hrem0 : (0 : ℚ) < ((i.total_nuts - roundWasteToNearestIntegerHalfEven i.total_nuts : ℤ) : ℚ) := by
      exact_mod_cast (by omega : (0 : ℤ) < i.total_nuts - roundWasteToNearestIntegerHalfEven i.total_nuts)
    exact mul_pos hrem0 hp
  · rw [mkResult_gross, toRat_quantizeMoney]
    apply quantizeMoneyQ_nonneg
    rw [Dec.toRat_mul, intDec_toRat]
    have hrem0 : (0 : ℚ) < ((i.total_nuts - roundWasteToNearestIntegerHalfEven i.total_nuts : ℤ) : ℚ) := by
      exact_mod_cast (by omega : (0 : ℤ) < i.total_nuts - roundWasteToNearestIntegerHalfEven i.total_nuts)
    exact le_of_lt (mul_pos hrem0 hp)

/-- Witness for C9 (amended). -/
theorem remaining_positive_gross_nonneg_witness :
    ∃ r, calculate exInputSpec = .ok r ∧ r.waste_nuts < exInputSpec.total_nuts ∧
      1 ≤ r.remaining_nuts ∧
      0 < (r.remaining_nuts : ℚ) * exInputSpec.price_each_rupees.toRat ∧
      0 ≤ r.gross_amount.toRat :=
  remaining_positive_gross_nonneg exInputSpec (by decide) (by decide) (by decide)
    (by decide)

/-! ## C2 (amended): end-to-end example, labor charged on total units -/

theorem centDec_toRat : (⟨1, 2⟩ : Dec).toRat = 1/100 := by
  unfold Dec.toRat
  norm_num

/-- C2 (amended): the spec's end-to-end example holds exactly, and in
general the labor charge is `total_nuts * (labor_percent / 100)` quantized
to two decimals half-even — exactly equal whenever the rate is a
whole-number of percent (scale-0 decimal) — and is based on the total unit
count, not the remaining count. -/
theorem labor_charge_formula_and_example (i : CalculationInput) (h1 : 0 < i.total_nuts)
    (h2 : ¬ i.price_each_rupees ≤ (⟨0, 0⟩ : Dec)) (h3 : i.invoice_no ≠ "")
    (h4 : 0 ≤ i.client_no) :
    (∃ r, calculate i = .ok r ∧
      r.labor_charges.toRat =
        quantizeMoneyQ ((i.total_nuts : ℚ) * (i.labor_percent.toRat / 100)) ∧
      (i.labor_percent.s = 0 →
        r.labor_charges.toRat = (i.total_nuts : ℚ) * (i.labor_percent.toRat / 100))) ∧
    (∃ re, calculate exInputSpec = .ok re ∧ re.waste_nuts = 125 ∧
      re.remaining_nuts = 5545 ∧ re.gross_amount = ⟨12199000, 2⟩ ∧
      re.tax_amount = ⟨121990, 2⟩ ∧ re.labor_charges = ⟨62370, 2⟩ ∧
      re.final_amount = ⟨12014640, 2⟩) := by
  have hgen : (mkResult i).labor_charges.toRat
      = quantizeMoneyQ ((i.total_nuts : ℚ) * (i.labor_percent.toRat / 100)) := by
    rw [mkResult_labor, toRat_quantizeMoney, Dec.toRat_mul, Dec.toRat_divPow10, intDec_toRat]
    norm_num
  refine ⟨⟨mkResult i, calculate_ok i h1 h2 h3 h4, hgen, ?_⟩,
    mkResult exInputSpec, rfl, by decide, by decide, by decide, by decide, by decide,
    by decide⟩
  intro hs
  have hval : (i.total_nuts : ℚ) * (i.labor_percent.toRat / 100)
      = ((i.total_nuts * i.labor_percent.m : ℤ) : ℚ) / 100 := by
    unfold Dec.toRat
    rw [hs]
    push_cast
    ring
  rw [hgen, hval, quantizeMoneyQ_exact]

/-- Witness for C2 (amended) at the spec's example input. -/
theorem labor_charge_formula_and_example_witness :
    (∃ r, calculate exInputSpec = .ok r ∧
      r.labor_charges.toRat =
        quantizeMoneyQ ((exInputSpec.total_nuts : ℚ) * (exInputSpec.labor_percent.toRat / 100)) ∧
      (exInputSpec.labor_percent.s = 0 →
        r.labor_charges.toRat =
          (exInputSpec.total_nuts : ℚ) * (exInputSpec.labor_percent.toRat / 100))) ∧
    (∃ re, calculate exInputSpec = .ok re ∧ re.waste_nuts = 125 ∧
      re.remaining_nuts = 5545 ∧ re.gross_amount = ⟨12199000, 2⟩ ∧
      re.tax_amount = ⟨121990, 2⟩ ∧ re.labor_charges = ⟨62370, 2⟩ ∧
      re.final_amount = ⟨12014640, 2⟩) :=
  labor_charge_formula_and_example exInputSpec (by decide) (by decide) (by decide)
    (by decide)

/-- Counterexample for C2 as stated: at a 0.5% labor rate on one unit, the
raw labor charge 0.005 quantizes to 0.00, so the stored labor charge does
not equal `total_nuts * (labor_percent / 100)`. -/
theorem labor_charge_not_exact :
    ∃ r, calculate exInputHalfPercent = .ok r ∧ r.labor_charges = ⟨0, 2⟩ ∧
      r.labor_charges.toRat ≠
        (exInputHalfPercent.total_nuts : ℚ)
          * (exInputHalfPercent.labor_percent.toRat / 100) := by
  refine ⟨mkResult exInputHalfPercent, rfl, by decide, ?_⟩
  have h : (mkResult exInputHalfPercent).labor_charges = ⟨0, 2⟩ := by decide
  rw [h]
  norm_num [Dec.toRat, exInputHalfPercent]

/-! ## C6 (amended): monotonicity in the unit price -/

/-- C6 (amended): with all other inputs fixed and a strictly larger
positive unit price, the wastage and remaining count are unchanged, the
pre-quantization gross, tax and final amounts strictly increase, and the
returned two-decimal amounts increase weakly (quantization can collapse a
strict raw increase into equality). -/
theorem price_monotonicity (i : CalculationInput) (p2 : Dec)
    (h1 : 0 < i.total_nuts) (h3 : i.invoice_no ≠ "") (h4 : 0 ≤ i.client_no)
    (hp1 : ¬ i.price_each_rupees ≤ (⟨0, 0⟩ : Dec)) (hlt : ¬ p2 ≤ i.price_each_rupees) :
    ∃ r1 r2, calculate i = .ok r1 ∧
      calculate { i with price_each_rupees := p2 } = .ok r2 ∧
      r1.waste_nuts = r2.waste_nuts ∧ r1.remaining_nuts = r2.remaining_nuts ∧
      (r1.remaining_nuts : ℚ) * i.price_each_rupees.toRat
        < (r2.remaining_nuts : ℚ) * p2.toRat ∧
      (r1.remaining_nuts : ℚ) * i.price_each_rupees.toRat * (1/100)
        < (r2.remaining_nuts : ℚ) * p2.toRat * (1/100) ∧
      ((r1.remaining_nuts : ℚ) * i.price_each_rupees.toRat
          - (r1.remaining_nuts : ℚ) * i.price_each_rupees.toRat * (1/100)
          - (i.total_nuts : ℚ) * (i.labor_percent.toRat / 100)
        < (r2.remaining_nuts : ℚ) * p2.toRat
          - (r2.remaining_nuts : ℚ) * p2.toRat * (1/100)
          - (i.total_nuts : ℚ) * (i.labor_percent.toRat / 100)) ∧
      r1.gross_amount.toRat ≤ r2.gross_amount.toRat ∧
      r1.tax_amount.toRat ≤ r2.tax_amount.toRat ∧
      r1.final_amount.toRat ≤ r2.final_amount.toRat := by
  have hp1r : 0 < i.price_each_rupees.toRat := price_pos_of_not_le hp1
  have hplt : i.price_each_rupees.toRat < p2.toRat := by
    rw [Dec.le_iff] at hlt
    exact lt_of_not_le hlt
  have hp2 : ¬ p2 ≤ (⟨0, 0⟩ : Dec) := by
    rw [Dec.le_iff, zeroDec_toRat]
    exact not_le.mpr (lt_trans hp1r hplt)
  have hrem0 := remaining_pos_rat i.total_nuts h1
  have hgraw : ((i.total_nuts - roundWasteToNearestIntegerHalfEven i.total_nuts : ℤ) : ℚ)
        * i.price_each_rupees.toRat
      < ((i.total_nuts - roundWasteToNearestIntegerHalfEven i.total_nuts : ℤ) : ℚ)
        * p2.toRat :=
    mul_lt_mul_of_pos_left hplt hrem0
  refine ⟨mkResult i, mkResult { i with price_each_rupees := p2 },
    calculate_ok i h1 hp1 h3 h4,
    calculate_ok { i with price_each_rupees := p2 } h1 hp2 h3 h4,
    rfl, rfl, ?_, ?_, ?_, ?_, ?_, ?_⟩
  · simp only [mkResult_remaining]
    exact hgraw
  · simp only [mkResult_remaining]
    exact mul_lt_mul_of_pos_right hgraw (by norm_num)
  · simp only [mkResult_remaining]
    clear hp1 hlt hp2
    linarith [hgraw]
  · simp only [mkResult_gross, toRat_quantizeMoney, Dec.toRat_mul, intDec_toRat]
    exact quantizeMoneyQ_mono (le_of_lt hgraw)
  · simp only [mkResult_tax, toRat_quantizeMoney, Dec.toRat_mul, intDec_toRat,
      centDec_toRat]
    exact quantizeMoneyQ_mono (le_of_lt (mul_lt_mul_of_pos_right hgraw (by norm_num)))
  · simp only [mkResult_final, toRat_quantizeMoney, Dec.toRat_sub, Dec.toRat_mul,
      Dec.toRat_divPow10, intDec_toRat, centDec_toRat]
    apply quantizeMoneyQ_mono
    clear hp1 hlt hp2
    linarith [hgraw]

/-- Witness for C6 (amended): prices 22.00 and 23.00. -/
theorem price_monotonicity_witness :
    ∃ r1 r2, calculate exInputSpec = .ok r1 ∧
      calculate { exInputSpec with price_each_rupees := (⟨23, 0⟩ : Dec) } = .ok r2 ∧
      r1.waste_nuts = r2.waste_nuts ∧ r1.remaining_nuts = r2.remaining_nuts ∧
      (r1.remaining_nuts : ℚ) * exInputSpec.price_each_rupees.toRat
        < (r2.remaining_nuts : ℚ) * (⟨23, 0⟩ : Dec).toRat ∧
      (r1.remaining_nuts : ℚ) * exInputSpec.price_each_rupees.toRat * (1/100)
        < (r2.remaining_nuts : ℚ) * (⟨23, 0⟩ : Dec).toRat * (1/100) ∧
      ((r1.remaining_nuts : ℚ) * exInputSpec.price_each_rupees.toRat
          - (r1.remaining_nuts : ℚ) * exInputSpec.price_each_rupees.toRat * (1/100)
          - (exInputSpec.total_nuts : ℚ) * (exInputSpec.labor_percent.toRat / 100)
        < (r2.remaining_nuts : ℚ) * (⟨23, 0⟩ : Dec).toRat
          - (r2.remaining_nuts : ℚ) * (⟨23, 0⟩ : Dec).toRat * (1/100)
          - (exInputSpec.total_nuts : ℚ) * (exInputSpec.labor_percent.toRat / 100)) ∧
      r1.gross_amount.toRat ≤ r2.gross_amount.toRat ∧
      r1.tax_amount.toRat ≤ r2.tax_amount.toRat ∧
      r1.final_amount.toRat ≤ r2.final_amount.toRat :=
  price_monotonicity exInputSpec ⟨23, 0⟩ (by decide) (by decide) (by decide)
    (by decide) (by decide)

/-- Counterexample for C6 as stated: one nut at prices 10.0001 < 10.0002
yields identical stored gross (10.00), tax (0.10) and positive final
(9.79) amounts — the strict increase is destroyed by quantization. -/
theorem price_monotonicity_fails_strictly :
    ∃ r1 r2, calculate (exInputPrice exPriceA) = .ok r1 ∧
      calculate (exInputPrice exPriceB) = .ok r2 ∧
      exPriceA.toRat < exPriceB.toRat ∧ 0 < exPriceA.toRat ∧
      r1.gross_amount = r2.gross_amount ∧ r1.tax_amount = r2.tax_amount ∧
      r1.final_amount = r2.final_amount ∧ 0 < r1.final_amount.toRat := by
  refine ⟨mkResult (exInputPrice exPriceA), mkResult (exInputPrice exPriceB),
    rfl, rfl, ?_, ?_, by decide, by decide, by decide, ?_⟩
  · norm_num [Dec.toRat, exPriceA, exPriceB]
  · norm_num [Dec.toRat, exPriceA]
  · have h : (mkResult (exInputPrice exPriceA)).final_amount = ⟨979, 2⟩ := by decide
    rw [h]
    norm_num [Dec.toRat]

/-- Counterexample for C9 as stated: with one nut at price 0.001 the
returned gross amount quantizes to 0.00, not strictly positive. -/
theorem gross_not_strictly_positive :
    ∃ r, calculate exInputTinyPrice = .ok r ∧ r.gross_amount = ⟨0, 2⟩ ∧
      r.gross_amount.toRat = 0 ∧ 0 < exInputTinyPrice.total_nuts ∧
      ¬ exInputTinyPrice.price_each_rupees ≤ (⟨0, 0⟩ : Dec) := by
  refine ⟨mkResult exInputTinyPrice, rfl, by decide, ?_, by decide, by decide⟩
  have h : (mkResult exInputTinyPrice).gross_amount = ⟨0, 2⟩ := by decide
  rw [h]
  unfold Dec.toRat
  norm_num

/-! ## C4: deduplication keeps each key's first occurrence -/

theorem dedupLoop_len : ∀ (rows : List Row) (seen : List (String × String × String)),
    (dedupLoop rows seen).1.length + (dedupLoop rows seen).2 = rows.length
  | [], _ => rfl
  | r :: rs, seen => by
    unfold dedupLoop
    by_cases h : dedupKey r ∈ seen
    · rw [if_pos h]
      have ih := dedupLoop_len rs seen
      simp only [List.length_cons]
      omega
    · rw [if_neg h]
      have ih := dedupLoop_len rs (dedupKey r :: seen)
      simp only [List.length_cons]
      omega

theorem dedupLoop_fst : ∀ (rows : List Row) (seen : List (String × String × String)),
    (dedupLoop rows seen).1 =
      firstOccurrences (rows.filter fun r => decide (dedupKey r ∉ seen))
  | [], _ => by simp [dedupLoop, firstOccurrences]
  | r :: rs, seen => by
    unfold dedupLoop
    rw [List.filter_cons]
    by_cases h : dedupKey r ∈ seen
    · rw [if_pos h]
      have ih := dedupLoop_fst rs seen
      rw [if_neg (by simp [h] : ¬ (decide (dedupKey r ∉ seen)) = true)]
      exact ih
    · rw [if_neg h]
      have ih := dedupLoop_fst rs (dedupKey r :: seen)
      have hcomb : (rs.filter fun x => decide (dedupKey x ∉ seen)).filter
            (fun x => decide (dedupKey x ≠ dedupKey r)) =
          rs.filter fun x => decide (dedupKey x ∉ dedupKey r :: seen) := by
        rw [List.filter_filter]
        apply List.filter_congr
        intro x _
        by_cases hx1 : dedupKey x ∈ seen <;> by_cases hx2 : dedupKey x = dedupKey r <;>
          simp [hx1, hx2]
      rw [if_pos (by simp [h] : (decide (dedupKey r ∉ seen)) = true),
        firstOccurrences, hcomb, ih]

theorem firstOccurrences_sublist : ∀ l : List Row, (firstOccurrences l).Sublist l
  | [] => by simp [firstOccurrences]
  | r :: rs => by
    rw [firstOccurrences]
    exact ((firstOccurrences_sublist _).trans (List.filter_sublist _)).cons₂ r
termination_by l => l.length
decreasing_by
  simp only [List.length_cons]
  exact Nat.lt_succ_of_le (List.length_filter_le _ _)

theorem firstOccurrences_pairwise :
    ∀ l : List Row, (firstOccurrences l).Pairwise fun x y => dedupKey x ≠ dedupKey y
  | [] => by simp [firstOccurrences]
  | r :: rs => by
    rw [firstOccurrences]
    refine List.Pairwise.cons ?_ (firstOccurrences_pairwise _)
    intro x hx
    have hx2 := (firstOccurrences_sublist _).subset hx
    have := List.of_mem_filter hx2
    simp only [decide_eq_true_eq] at this
    exact fun hk => this hk.symm
termination_by l => l.length
decreasing_by
  simp only [List.length_cons]
  exact Nat.lt_succ_of_le (List.length_filter_le _ _)

/-- C4: on every row sequence, deduplication keeps exactly the first
record of each (lower-cased trimmed name, trimmed voucher text, trimmed
amount text) key in insertion order (`firstOccurrences`), keeps them as a
subsequence (order preserved), returns the number of dropped rows, and the
kept rows have pairwise distinct keys; two rows whose amounts are
numerically equal but textually different ("100.0" vs "100.00") are both
kept, while a textual duplicate is dropped. -/
theorem deduplication_keeps_first (rows : List Row) :
    (deduplicateHistory rows).1 = firstOccurrences rows ∧
    (deduplicateHistory rows).1.Sublist rows ∧
    (deduplicateHistory rows).1.length + (deduplicateHistory rows).2 = rows.length ∧
    (deduplicateHistory rows).1.Pairwise (fun x y => dedupKey x ≠ dedupKey y) ∧
    deduplicateHistory
      [{ client_name := some "Alice", v_no := some "7", final_amount := some "100.0" },
       { client_name := some "Alice", v_no := some "7", final_amount := some "100.00" }] =
      ([{ client_name := some "Alice", v_no := some "7", final_amount := some "100.0" },
        { client_name := some "Alice", v_no := some "7", final_amount := some "100.00" }], 0) ∧
    deduplicateHistory
      [{ client_name := some "Bob", v_no := some "8", final_amount := some "50.00" },
       { client_name := some "Bob", v_no := some "8", final_amount := some "50.00" },
       { client_name := some "Bob", v_no := some "9", final_amount := some "50.00" }] =
      ([{ client_name := some "Bob", v_no := some "8", final_amount := some "50.00" },
        { client_name := some "Bob", v_no := some "9", final_amount := some "50.00" }], 1) := by
  have hmain : (deduplicateHistory rows).1 = firstOccurrences rows := by
    unfold deduplicateHistory
    by_cases hrow : rows = []
    · subst hrow
      simp [firstOccurrences]
    · rw [if_neg hrow, dedupLoop_fst]
      congr 1
      apply List.filter_eq_self.mpr
      intro a _
      simp
  refine ⟨hmain, ?_, ?_, ?_, by decide, by decide⟩
  · rw [hmain]
    exact firstOccurrences_sublist rows
  · unfold deduplicateHistory
    by_cases hrow : rows = []
    · subst hrow
      rfl
    · rw [if_neg hrow]
      exact dedupLoop_len rows []
  · rw [hmain]
    exact firstOccurrences_pairwise rows

/-! ## C5: the voucher-range filter and its stable sort -/

instance : IsTotal (ℤ × Row) keyLE := ⟨fun x y => le_total x.1 y.1⟩

instance : IsTrans (ℤ × Row) keyLE := ⟨fun _ _ _ hab hbc => le_trans hab hbc⟩

theorem voucherWindow_eq (a b : ℤ) : voucherWindow a b = (min a b, max a b) := by
  unfold voucherWindow
  rcases lt_trichotomy a b with h | h | h
  · rw [if_neg (by omega), min_eq_left (by omega), max_eq_right (by omega)]
  · subst h
    simp
  · rw [if_pos h, min_eq_right (by omega), max_eq_left (by omega)]

theorem mem_voucherRangeFiltered (rows : List Row) (a b v : ℤ) (r : Row) :
    (v, r) ∈ voucherRangeFiltered rows a b ↔
      (r ∈ rows ∧ parsePyInt (vnoText r) = some v ∧ min a b ≤ v ∧ v ≤ max a b) := by
  unfold voucherRangeFiltered
  rw [List.mem_filterMap]
  constructor
  · rintro ⟨r0, hr0, hf⟩
    rcases hp : parsePyInt (vnoText r0) with _ | v0
    · rw [hp] at hf
      cases hf
    · rw [hp] at hf
      dsimp only at hf
      by_cases hw : (voucherWindow a b).1 ≤ v0 ∧ v0 ≤ (voucherWindow a b).2
      · rw [if_pos hw] at hf
        injection hf with hf2
        have hv : v0 = v := congrArg Prod.fst hf2
        have hr : r0 = r := congrArg Prod.snd hf2
        subst hv
        subst hr
        rw [voucherWindow_eq] at hw
        exact ⟨hr0, hp, hw.1, hw.2⟩
      · rw [if_neg hw] at hf
        cases hf
  · rintro ⟨hr, hp, h1, h2⟩
    refine ⟨r, hr, ?_⟩
    rw [hp]
    dsimp only
    rw [if_pos (by rw [voucherWindow_eq]; exact ⟨h1, h2⟩)]

theorem filter_key_orderedInsert (k : ℤ) (x : ℤ × Row) (s : List (ℤ × Row)) :
    (s.orderedInsert keyLE x).filter (fun p => decide (p.1 = k)) =
      if x.1 = k then x :: s.filter (fun p => decide (p.1 = k))
      else s.filter (fun p => decide (p.1 = k)) := by
  induction s with
  | nil =>
    simp only [List.orderedInsert]
    by_cases hx : x.1 = k <;> simp [hx]
  | cons y ys ih =>
    rw [List.orderedInsert]
    by_cases hxy : keyLE x y
    · rw [if_pos hxy]
      by_cases hx : x.1 = k <;> by_cases hy : y.1 = k <;>
        simp [hx, hy, List.filter_cons]
    · rw [if_neg hxy]
      have hyx : y.1 < x.1 := by
        have := lt_of_not_le hxy
        exact this
      by_cases hy : y.1 = k
      · have hx : ¬ x.1 = k := by omega
        simp [List.filter_cons, hy, hx, ih]
      · by_cases hx : x.1 = k <;> simp [hx, hy, List.filter_cons, ih]

theorem filter_key_insertionSort (k : ℤ) (l : List (ℤ × Row)) :
    (List.insertionSort keyLE l).filter (fun p => decide (p.1 = k)) =
      l.filter (fun p => decide (p.1 = k)) := by
  induction l with
  | nil => rfl
  | cons x xs ih =>
    rw [List.insertionSort, filter_key_orderedInsert]
    by_cases hx : x.1 = k <;> simp [hx, ih, List.filter_cons]

/-- C5: the voucher window is normalized by swapping, the sorted result
holds exactly the records whose voucher id parses into the inclusive
window (non-numeric ids skipped), it is sorted ascending by voucher id,
the relative ledger order of records with equal ids is preserved (the
classic stability property, via key-filter equality with the unsorted
filter pass), an empty filter result yields the fixed "no vouchers found"
marker, and on voucher ids 5, 3, 9, 1 with window [2, 6] the result is
[3, 5]. -/
theorem voucher_range_filter_sort (rows : List Row) (a b : ℤ) :
    voucherWindow a b = (min a b, max a b) ∧
    (∀ v r, (v, r) ∈ voucherRangeSorted rows a b ↔
      (r ∈ rows ∧ parsePyInt (vnoText r) = some v ∧ min a b ≤ v ∧ v ≤ max a b)) ∧
    (voucherRangeSorted rows a b).Sorted keyLE ∧
    (∀ k : ℤ, (voucherRangeSorted rows a b).filter (fun p => decide (p.1 = k)) =
      (voucherRangeFiltered rows a b).filter (fun p => decide (p.1 = k))) ∧
    (voucherRangeFiltered rows a b = [] →
      voucherRangeReport rows a b = noVouchersFound) ∧
    (voucherRangeSorted
      [{ v_no := some "5" }, { v_no := some "3" }, { v_no := some "9" },
       { v_no := some "1" }] 2 6).map (fun p => p.1) = [3, 5] := by
  refine ⟨voucherWindow_eq a b, ?_, ?_, ?_, ?_, by decide⟩
  · intro v r
    rw [show voucherRangeSorted rows a b
        = List.insertionSort keyLE (voucherRangeFiltered rows a b) from rfl,
      List.mem_insertionSort]
    exact mem_voucherRangeFiltered rows a b v r
  · exact List.sorted_insertionSort keyLE _
  · intro k
    exact filter_key_insertionSort k _
  · intro h
    unfold voucherRangeReport
    rw [if_pos h]

/-- Witness for C5: the marker case at a window matching nothing, plus the
reversed-window normalization. -/
theorem voucher_range_filter_sort_witness :
    voucherRangeReport [({ v_no := some "5" } : Row)] 100 200 = noVouchersFound ∧
    voucherWindow 6 2 = (min 6 2, max 6 2) :=
  ⟨(voucher_range_filter_sort [({ v_no := some "5" } : Row)] 100 200).2.2.2.2.1
      (by decide),
    (voucher_range_filter_sort [] 6 2).1⟩

/-! ## C7: Indian-system digit grouping of report amounts -/

theorem groupsRev_flatten : ∀ l : List Char, ((groupsRev l).reverse).flatten = l.reverse
  | [] => rfl
  | [c] => rfl
  | c :: d :: rest => by
    have ih := groupsRev_flatten rest
    simp only [groupsRev, List.reverse_cons, List.flatten_append, ih]
    simp

theorem groupsRev_groups : ∀ l : List Char, l ≠ [] →
    ∃ gs g0, groupsRev l = gs ++ [g0] ∧ (∀ g ∈ gs, g.length = 2) ∧
      1 ≤ g0.length ∧ g0.length ≤ 2
  | [], h => absurd rfl h
  | [c], _ => ⟨[], [c], rfl, by simp, by simp, by simp⟩
  | c :: d :: rest, _ => by
    rcases eq_or_ne rest [] with hr | hr
    · subst hr
      exact ⟨[], [d, c], rfl, by simp, by simp, by simp⟩
    · obtain ⟨gs, g0, heq, hgs, h1, h2⟩ := groupsRev_groups rest hr
      refine ⟨[d, c] :: gs, g0, ?_, ?_, h1, h2⟩
      · rw [groupsRev.eq_3, heq]
        rfl
      · intro g hg
        rcases List.mem_cons.mp hg with hg | hg
        · subst hg
          rfl
        · exact hgs g hg

/-- `_format_indian_number` produces the claimed digit grouping for every
integer: the digits of the absolute value, regrouped with the last three
together and pairs in front. -/
theorem formatIndianNumber_grouped (n : ℤ) :
    IndianGrouped (formatIndianNumber n) ((toString n.natAbs).toList) := by
  unfold formatIndianNumber IndianGrouped
  by_cases hlen : ((toString n.natAbs).toList).length ≤ 3
  · rw [if_pos hlen]
    exact Or.inl ⟨hlen, rfl⟩
  · rw [if_neg hlen]
    dsimp only
    push_neg at hlen
    right
    refine ⟨hlen, ?_⟩
    set s := (toString n.natAbs).toList with hs
    have hrest_ne : (s.take (s.length - 3)).reverse ≠ [] := by
      intro hemp
      rw [List.reverse_eq_nil_iff] at hemp
      have hlt := congrArg List.length hemp
      rw [List.length_take] at hlt
      simp only [List.length_nil] at hlt
      omega
    obtain ⟨gs, g0, heq, hgs, hg01, hg02⟩ := groupsRev_groups _ hrest_ne
    refine ⟨g0, gs.reverse, s.drop (s.length - 3), ?_, ?_, ?_, ?_, hg01, hg02⟩
    · have hig1 : indianGroups (s.take (s.length - 3)) = g0 :: gs.reverse := by
        unfold indianGroups
        rw [heq, List.reverse_append]
        rfl
      rw [hig1]
    · have hflat : (indianGroups (s.take (s.length - 3))).flatten = s.take (s.length - 3) := by
        have h := groupsRev_flatten (s.take (s.length - 3)).reverse
        unfold indianGroups
        rw [h, List.reverse_reverse]
      have hig : indianGroups (s.take (s.length - 3)) = g0 :: gs.reverse := by
        unfold indianGroups
        rw [heq, List.reverse_append]
        rfl
      have h2 : (g0 :: gs.reverse ++ [s.drop (s.length - 3)]).flatten
          = (g0 :: gs.reverse).flatten ++ s.drop (s.length - 3) := by
        rw [show g0 :: gs.reverse ++ [s.drop (s.length - 3)]
            = (g0 :: gs.reverse) ++ [s.drop (s.length - 3)] from rfl,
          List.flatten_append]
        simp
      rw [h2, ← hig, hflat, List.take_append_drop]
    · rw [List.length_drop]
      omega
    · intro g hg
      exact hgs g (List.mem_reverse.mp hg)

/-- C7: every amount string in the range report splits the (float-parsed)
final amount into rupees and paise, renders the rupee part in South-Asian
digit grouping — digits preserved, a last group of three, groups of two in
front — and appends ".NN" exactly when the paise value is nonzero;
1545468 is rendered "15,45,468". -/
theorem range_report_amount_grouping (rows : List Row) (a b : ℤ) :
    (∀ e, e ∈ voucherRangeEntries rows a b → ∃ v r,
      (v, r) ∈ voucherRangeSorted rows a b ∧
      e = (clientNameText r ++ " (" ++ toString v ++ ")",
        formatIndianNumber (pyTruncDec (amountValue r)) ++
          (if paiseOf (amountValue r) ≠ 0
            then "." ++ pyFormat02d (paiseOf (amountValue r)) else "")) ∧
      IndianGrouped (formatIndianNumber (pyTruncDec (amountValue r)))
        ((toString (pyTruncDec (amountValue r)).natAbs).toList) ∧
      (paiseOf (amountValue r) = 0 →
        e.2 = formatIndianNumber (pyTruncDec (amountValue r)))) ∧
    formatIndianNumber 1545468 = "15,45,468" := by
  constructor
  · intro e he
    unfold voucherRangeEntries at he
    rw [List.mem_map] at he
    obtain ⟨p, hp, hep⟩ := he
    refine ⟨p.1, p.2, hp, ?_, formatIndianNumber_grouped _, ?_⟩
    · rw [← hep]
      rfl
    · intro hz
      rw [← hep]
      show formatAmountText (amountValue p.2) = _
      unfold formatAmountText
      rw [if_neg (by simp [hz])]
      simp
  · decide

/-- Witness for C7 at one concrete ledger row. -/
theorem range_report_amount_grouping_witness :
    ∃ v r,
      (v, r) ∈ voucherRangeSorted
        [{ client_name := some "A", v_no := some "1",
           final_amount := some "1545468.50" }] 1 1 ∧
      (("A (1)", "15,45,468.50") : String × String)
        = (clientNameText r ++ " (" ++ toString v ++ ")",
          formatIndianNumber (pyTruncDec (amountValue r)) ++
            (if paiseOf (amountValue r) ≠ 0
              then "." ++ pyFormat02d (paiseOf (amountValue r)) else "")) ∧
      IndianGrouped (formatIndianNumber (pyTruncDec (amountValue r)))
        ((toString (pyTruncDec (amountValue r)).natAbs).toList) ∧
      (paiseOf (amountValue r) = 0 →
        (("A (1)", "15,45,468.50") : String × String).2
          = formatIndianNumber (pyTruncDec (amountValue r))) :=
  (range_report_amount_grouping
    [{ client_name := some "A", v_no := some "1",
       final_amount := some "1545468.50" }] 1 1).1
    ("A (1)", "15,45,468.50") (by decide)

/-! ## C10: rendering of negative amounts -/

theorem pyTruncDec_neg (m : ℤ) (s : ℕ) :
    pyTruncDec ⟨-m, s⟩ = -pyTruncDec ⟨m, s⟩ := by
  unfold pyTruncDec
  rcases lt_trichotomy m 0 with h | h | h
  · rw [if_neg (by dsimp only; omega), if_pos (by dsimp only; omega)]
    dsimp only
    rw [neg_neg]
  · subst h
    norm_num
  · rw [if_pos (by dsimp only; omega), if_neg (by dsimp only; omega)]
    dsimp only
    rw [neg_neg]

theorem roundHalfEvenInt_neg (n : ℤ) (k : ℕ) :
    roundHalfEvenInt (-n) k = -roundHalfEvenInt n k := by
  rw [roundHalfEvenInt_eq, roundHalfEvenInt_eq,
    show ((-n : ℤ) : ℚ) = -((n : ℤ) : ℚ) from by push_cast; ring, neg_div]
  exact roundHalfEven_neg _

theorem paiseOf_neg (a : Dec) : paiseOf ⟨-a.m, a.s⟩ = -paiseOf a := by
  unfold paiseOf pyRoundDec
  have h1 : pyTruncDec ⟨-a.m, a.s⟩ = -pyTruncDec a := by
    have h := pyTruncDec_neg a.m a.s
    simpa using h
  rw [h1]
  unfold Dec.sub Dec.mul
  dsimp only
  rw [show (-a.m * 10 ^ (max a.s 0 - a.s) - -pyTruncDec a * 10 ^ (max a.s 0 - 0)) * 100
      = -((a.m * 10 ^ (max a.s 0 - a.s) - pyTruncDec a * 10 ^ (max a.s 0 - 0)) * 100)
    from by ring]
  exact roundHalfEvenInt_neg _ _

theorem formatAmountText_paise_zero (a : Dec) (hz : paiseOf a = 0) :
    formatAmountText a = formatIndianNumber (pyTruncDec a) := by
  unfold formatAmountText
  rw [if_neg (by simp [hz])]
  simp

theorem formatIndianNumber_neg (z : ℤ) :
    formatIndianNumber (-z) = formatIndianNumber z := by
  unfold formatIndianNumber
  rw [Int.natAbs_neg]

/-- C10 (amended): the integer-rupee part of a rendered amount is always
the unsigned Indian grouping of the absolute value, and a negative amount
whose paise value is zero renders identically to the equal positive
amount; when the paise are nonzero the amount is still rendered as the
unsigned rupee part followed by "." and the `%02d` paise — which carries
the minus sign — so such a negative amount remains distinguishable. -/
theorem negative_amount_rendering (a : Dec) :
    formatIndianNumber (-(pyTruncDec a)) = formatIndianNumber (pyTruncDec a) ∧
    formatAmountText a = formatIndianNumber (pyTruncDec a) ++
      (if paiseOf a ≠ 0 then "." ++ pyFormat02d (paiseOf a) else "") ∧
    (paiseOf a = 0 → formatAmountText a = formatIndianNumber (pyTruncDec a)) ∧
    (paiseOf a = 0 → formatAmountText a = formatAmountText ⟨-a.m, a.s⟩) := by
  refine ⟨formatIndianNumber_neg _, rfl, formatAmountText_paise_zero a, ?_⟩
  intro hz
  have hz2 : paiseOf ⟨-a.m, a.s⟩ = 0 := by
    rw [paiseOf_neg, hz, neg_zero]
  rw [formatAmountText_paise_zero a hz, formatAmountText_paise_zero _ hz2]
  have ht : pyTruncDec ⟨-a.m, a.s⟩ = -pyTruncDec a := by
    have h := pyTruncDec_neg a.m a.s
    simpa using h
  rw [ht, formatIndianNumber_neg]

/-- Witness for C10 (amended) at the amount -100.00. -/
theorem negative_amount_rendering_witness :
    formatIndianNumber (-(pyTruncDec ⟨-10000, 2⟩))
      = formatIndianNumber (pyTruncDec ⟨-10000, 2⟩) ∧
    formatAmountText ⟨-10000, 2⟩ = formatIndianNumber (pyTruncDec ⟨-10000, 2⟩) ++
      (if paiseOf ⟨-10000, 2⟩ ≠ 0 then "." ++ pyFormat02d (paiseOf ⟨-10000, 2⟩) else "") ∧
    (paiseOf ⟨-10000, 2⟩ = 0 →
      formatAmountText ⟨-10000, 2⟩ = formatIndianNumber (pyTruncDec ⟨-10000, 2⟩)) ∧
    (paiseOf ⟨-10000, 2⟩ = 0 →
      formatAmountText ⟨-10000, 2⟩ = formatAmountText ⟨-(-10000), 2⟩) := by
  have h := negative_amount_rendering ⟨-10000, 2⟩
  exact ⟨h.1, h.2.1, h.2.2.1, h.2.2.2⟩

/-- Counterexample for C10 as stated: the ledger amount "-100.50" renders
as "100.-50" — the minus sign survives in the paise segment — while the
equal positive amount renders "100.50", so the two are distinguishable. -/
theorem negative_paise_shows_minus :
    voucherRangeEntries
      [{ client_name := some "A", v_no := some "1",
         final_amount := some "-100.50" }] 1 1 = [("A (1)", "100.-50")] ∧
    voucherRangeEntries
      [{ client_name := some "A", v_no := some "1",
         final_amount := some "100.50" }] 1 1 = [("A (1)", "100.50")] ∧
    ("100.-50" : String) ≠ "100.50" ∧
    '-' ∈ ("100.-50" : String).toList :=
  ⟨by decide, by decide, by decide, by decide⟩

/-! ## C8: idempotent-by-identity artifact saves -/

/-- C8: slip and range-report saves are idempotent by identity.  The slip
name is a function of (voucher id, date, abbreviated client name) alone
and the range name of (party, voucher window, date) alone by construction;
if an artifact already exists at the computed name, the save changes
nothing and reports `false` ("already saved"); at a fresh name it creates
exactly one artifact and reports `true`, and a second save of the same key
then leaves the stored content unchanged and reports `false`. -/
theorem save_operations_idempotent (fs : FileStore) (r : CalculationResult)
    (c c2 party reportText reportText2 now now2 : String) (v1 v2 : ℤ) (d : SimpleDate) :
    (∀ c0, fs.lookup (slipFilename r) = some c0 →
      saveSlipTextIfNew fs r c = ((slipFilename r, false), fs)) ∧
    (fs.lookup (slipFilename r) = none →
      saveSlipTextIfNew fs r c = ((slipFilename r, true), (slipFilename r, c) :: fs) ∧
      saveSlipTextIfNew ((slipFilename r, c) :: fs) r c2
        = ((slipFilename r, false), (slipFilename r, c) :: fs) ∧
      ((slipFilename r, c) :: fs).lookup (slipFilename r) = some c) ∧
    (∀ c0, fs.lookup (rangeReportPath party v1 v2 d) = some c0 →
      saveRangeReportIfNew fs party v1 v2 reportText d now
        = ((rangeReportPath party v1 v2 d, false), fs)) ∧
    (fs.lookup (rangeReportPath party v1 v2 d) = none →
      ∃ content, saveRangeReportIfNew fs party v1 v2 reportText d now
          = ((rangeReportPath party v1 v2 d, true),
            (rangeReportPath party v1 v2 d, content) :: fs) ∧
        saveRangeReportIfNew ((rangeReportPath party v1 v2 d, content) :: fs)
            party v1 v2 reportText2 d now2
          = ((rangeReportPath party v1 v2 d, false),
            (rangeReportPath party v1 v2 d, content) :: fs) ∧
        ((rangeReportPath party v1 v2 d, content) :: fs).lookup
          (rangeReportPath party v1 v2 d) = some content) ∧
    (∀ r2 : CalculationResult, r.invoice_no = r2.invoice_no → r.date = r2.date →
      r.client_name = r2.client_name → slipFilename r = slipFilename r2) := by
  refine ⟨?_, ?_, ?_, ?_, ?_⟩
  · intro c0 h
    unfold saveSlipTextIfNew
    dsimp only
    rw [h]
  · intro h
    unfold saveSlipTextIfNew
    dsimp only
    rw [h]
    refine ⟨rfl, ?_, ?_⟩
    · simp [List.lookup]
    · simp [List.lookup]
  · intro c0 h
    unfold saveRangeReportIfNew
    dsimp only
    rw [h]
  · intro h
    unfold saveRangeReportIfNew
    dsimp only
    rw [h]
    refine ⟨"Party: " ++ party ++ "\nRange: " ++ toString v1 ++ ".." ++ toString v2
      ++ "\nSaved At (UTC): " ++ now ++ "\n\n" ++ reportText, rfl, ?_, ?_⟩
    · simp [List.lookup]
    · simp [List.lookup]
  · intro r2 h1 h2 h3
    unfold slipFilename
    rw [h1, h2, h3]

/-- Witness for C8 on an empty store. -/
theorem save_operations_idempotent_witness :
    (saveSlipTextIfNew [] (mkResult exInputSpec) "slip"
        = ((slipFilename (mkResult exInputSpec), true),
          [(slipFilename (mkResult exInputSpec), "slip")]) ∧
      saveSlipTextIfNew [(slipFilename (mkResult exInputSpec), "slip")]
          (mkResult exInputSpec) "other"
        = ((slipFilename (mkResult exInputSpec), false),
          [(slipFilename (mkResult exInputSpec), "slip")]) ∧
      [(slipFilename (mkResult exInputSpec), "slip")].lookup
        (slipFilename (mkResult exInputSpec)) = some "slip") ∧
    (∃ content, saveRangeReportIfNew [] "Party A" 1 2 "body" ⟨2025, 8, 10⟩ "T1"
        = ((rangeReportPath "Party A" 1 2 ⟨2025, 8, 10⟩, true),
          [(rangeReportPath "Party A" 1 2 ⟨2025, 8, 10⟩, content)]) ∧
      saveRangeReportIfNew [(rangeReportPath "Party A" 1 2 ⟨2025, 8, 10⟩, content)]
          "Party A" 1 2 "body2" ⟨2025, 8, 10⟩ "T2"
        = ((rangeReportPath "Party A" 1 2 ⟨2025, 8, 10⟩, false),
          [(rangeReportPath "Party A" 1 2 ⟨2025, 8, 10⟩, content)]) ∧
      [(rangeReportPath "Party A" 1 2 ⟨2025, 8, 10⟩, content)].lookup
        (rangeReportPath "Party A" 1 2 ⟨2025, 8, 10⟩) = some content) := by
  have h := save_operations_idempotent [] (mkResult exInputSpec) "slip" "other"
    "Party A" "body" "body2" "T1" "T2" 1 2 ⟨2025, 8, 10⟩
  exact ⟨h.2.1 rfl, h.2.2.2.1 rfl⟩

end Coconut
